import Mathlib

/-!
Verification development for the Lichess game-fetch pipeline
(`build_jsonls.py`).  The pipeline is shallowly embedded: the stateful
rate limiter becomes an explicit state-transition function over rational
timestamps, the network and the external chess library become oracle
parameters, and the retry loops become fuel-indexed recursions that also
record a trace of events (permit acquisitions, network requests, sleeps).
-/

namespace Chessnerd

/-- `MAX_RETRIES = 3` from the source configuration block. -/
def MAX_RETRIES : ℕ := 3

/-- `BATCH_SIZE = 300` from the source configuration block. -/
def BATCH_SIZE : ℕ := 300

/-- `REQUESTS_PER_SECOND = 15` from the source configuration block. -/
def REQUESTS_PER_SECOND : ℕ := 15

/-! ## RateLimiter (`RateLimiter.__init__` / `RateLimiter.acquire`)

The source keeps `self.requests`, a list of grant timestamps, under a
mutex.  Each pass through the body of `acquire` holds the lock, reads
`now = time.time()`, prunes stale timestamps, and either grants (appends
a fresh `time.time()` reading, taken at or after `now`) or releases the
lock and sleeps.  Because all list mutation happens under the lock, any
thread interleaving serializes into a sequence of such critical
sections; we model that sequence directly.  Each attempt carries the
pair `(p, a)` of its two clock readings, and real time is monotone, so
the flattened sequence `p1, a1, p2, a2, ...` is weakly increasing.
`history` is a ghost field recording every granted timestamp. -/
structure RLState where
  requests : List ℚ
  history : List ℚ
deriving DecidableEq

/-- Fresh limiter: `self.requests = []`. -/
def initRL : RLState := ⟨[], []⟩

/-- One pass through the locked body of `acquire`, with prune-time `p`
and append-time `a` (the two successive `time.time()` readings).  The
prune keeps `req_time` with `now - req_time < self.time_window`; if
fewer than `max_requests` remain the permit is granted. -/
def acquireAttempt (R : ℕ) (W : ℚ) (p a : ℚ) (s : RLState) : RLState :=
  let pruned := s.requests.filter fun t => decide (p - t < W)
  if pruned.length < R then
    { requests := pruned ++ [a], history := s.history ++ [a] }
  else
    { requests := pruned, history := s.history }

/-- Run a sequence of acquire passes. -/
def runAcquires (R : ℕ) (W : ℚ) : List (ℚ × ℚ) → RLState → RLState
  | [], s => s
  | (p, a) :: rest, s => runAcquires R W rest (acquireAttempt R W p a s)

/-- The flattened clock readings of a sequence of acquire passes. -/
def attemptTimes : List (ℚ × ℚ) → List ℚ
  | [] => []
  | (p, a) :: rest => p :: a :: attemptTimes rest

/-- Membership of a timestamp in the half-open rolling window
`(lo, lo + W]` of width `W`. -/
def inWindow (W lo t : ℚ) : Bool := decide (lo < t) && decide (t ≤ lo + W)

/-- The last clock reading of a sequence of acquire passes (its final
append-time), or `c` when the sequence is empty. -/
def lastTime (c : ℚ) : List (ℚ × ℚ) → ℚ
  | [] => c
  | (_, a) :: rest => lastTime a rest

/-- Invariant tying the live `requests` list to the ghost grant
`history` at clock value `c`: every timestamp occurs in `history` at
least as often as in `requests`, any occurrence dropped from `requests`
is at least `W` old at clock `c`, all grants happened by `c`, the grant
log is chronological, and every rolling window of width `W` holds at
most `R` grants. -/
def RLInv (R : ℕ) (W c : ℚ) (s : RLState) : Prop :=
  (∀ x : ℚ, s.requests.count x ≤ s.history.count x) ∧
  (∀ x : ℚ, s.requests.count x < s.history.count x → W ≤ c - x) ∧
  (∀ t ∈ s.history, t ≤ c) ∧
  s.history.Sorted (· ≤ ·) ∧
  (∀ lo : ℚ, s.history.countP (inWindow W lo) ≤ R)

/-! ## Event traces shared by the two fetchers -/

/-- Observable effects of a fetcher: a rate-limiter permit acquisition,
a network request (tagged with its 0-based attempt index), or a
`time.sleep` of the given number of seconds. -/
inductive Ev where
  | acq
  | req (attempt : ℕ)
  | sleep (seconds : ℕ)
deriving DecidableEq

/-- Is the event a network request? -/
def isReq : Ev → Bool
  | .req _ => true
  | _ => false

/-- Is the event a permit acquisition? -/
def isAcq : Ev → Bool
  | .acq => true
  | _ => false

/-- A trace in which every network request is immediately preceded by
its own permit acquisition (interleaved with sleeps). -/
def okTrace : List Ev → Bool
  | [] => true
  | .acq :: .req _ :: rest => okTrace rest
  | .sleep _ :: rest => okTrace rest
  | _ => false

/-! ## SingleFetcher (`fetch_game_pgn`) -/

/-- Classified HTTP outcome of one attempt, as the source branches on
`response.status_code`: 200, 404, 429, any other status, or a
`requests.RequestException`. -/
inductive FetchResp where
  | ok (body : String)
  | notFound
  | rateLimited
  | httpError
  | netError
deriving DecidableEq

/-- The `for attempt in range(MAX_RETRIES)` loop of `fetch_game_pgn`.
`fuel` is `MAX_RETRIES - attempt`, so `fuel = 0` is loop exit (the
trailing `return None`).  Each iteration acquires a permit, issues the
request and branches: 200 returns the body; 404 and other statuses
return `None`; 429 sleeps `5 * (attempt + 1)` seconds and retries; a
network error sleeps 2 seconds and retries only while
`attempt < MAX_RETRIES - 1`, i.e. while `0 < fuel - 1`. -/
def fetchLoop (resp : ℕ → FetchResp) : ℕ → ℕ → Option String × List Ev
  | 0, _ => (none, [])
  | fuel + 1, attempt =>
    match resp attempt with
    | .ok body => (some body, [.acq, .req attempt])
    | .notFound => (none, [.acq, .req attempt])
    | .httpError => (none, [.acq, .req attempt])
    | .rateLimited =>
      let rest := fetchLoop resp fuel (attempt + 1)
      (rest.1, .acq :: .req attempt :: .sleep (5 * (attempt + 1)) :: rest.2)
    | .netError =>
      if 0 < fuel then
        let rest := fetchLoop resp fuel (attempt + 1)
        (rest.1, .acq :: .req attempt :: .sleep 2 :: rest.2)
      else (none, [.acq, .req attempt])

/-- `fetch_game_pgn`, as a function of the per-attempt network oracle:
result together with the trace of acquisitions, requests and sleeps. -/
def fetch_game_pgn (resp : ℕ → FetchResp) : Option String × List Ev :=
  fetchLoop resp MAX_RETRIES 0

/-! ## BulkFetcher response splitter (`fetch_games_bulk`, 200 branch)

The source splits `response.text` on newlines and scans the lines with
three loop variables: `games_dict`, `current_game` (the lines of the
record being accumulated), and `game_id` (the last id extracted from a
`[Site "https://lichess.org/...` header line).  A blank line flushes the
accumulated record into the dict only when both `current_game` and
`game_id` are truthy; after the loop the same flush runs once more for a
trailing record not terminated by a blank line.  Two per-line text
tests are abstracted as oracles: `isBlank line` stands for the
falsity of `line.strip()`, and `extractId line` stands for the
`startswith('[Site "https://lichess.org/')` guard followed by the
`re.search` that pulls out the 8-12 character id (`none` when the guard
or the regex fails, in which case `game_id` keeps its previous
value). -/

/-- Python dict assignment `d[k] = v`: replaces the value at an existing
key in place, otherwise appends the new binding. -/
def dictInsert (k v : String) : List (String × String) → List (String × String)
  | [] => [(k, v)]
  | (k', v') :: rest =>
    if k' = k then (k', v) :: rest else (k', v') :: dictInsert k v rest

/-- Scanner state of the 200 branch of `fetch_games_bulk`. -/
structure BulkState where
  games : List (String × String)
  current_game : List String
  game_id : Option String
deriving DecidableEq

/-- One iteration of `for line in pgn_text.split('\n')`. -/
def processRespLine (isBlank : String → Bool) (extractId : String → Option String)
    (st : BulkState) (line : String) : BulkState :=
  if isBlank line then
    match st.game_id with
    | some gid =>
      if st.current_game.isEmpty then st
      else ⟨dictInsert gid (String.intercalate "\n" st.current_game) st.games, [], none⟩
    | none => st
  else
    let gid :=
      match extractId line with
      | some g => some g
      | none => st.game_id
    ⟨st.games, st.current_game ++ [line], gid⟩

/-- Final flush after the loop: `if current_game and game_id`. -/
def flushBulk (st : BulkState) : List (String × String) :=
  match st.game_id with
  | some gid =>
    if st.current_game.isEmpty then st.games
    else dictInsert gid (String.intercalate "\n" st.current_game) st.games
  | none => st.games

/-- The splitter over the already newline-split response lines. -/
def parseBulkLines (isBlank : String → Bool) (extractId : String → Option String)
    (lines : List String) : List (String × String) :=
  flushBulk (lines.foldl (processRespLine isBlank extractId) ⟨[], [], none⟩)

/-- The splitter over the raw response text, `pgn_text.split('\n')`
included. -/
def parseBulkResponse (isBlank : String → Bool) (extractId : String → Option String)
    (text : String) : List (String × String) :=
  parseBulkLines isBlank extractId (text.splitOn "\n")

/-- The id that the scanner's `game_id` variable holds after a run of
non-blank lines, starting from `init`. -/
def siteIdFold (extractId : String → Option String) (init : Option String)
    (lines : List String) : Option String :=
  lines.foldl
    (fun acc line =>
      match extractId line with
      | some g => some g
      | none => acc)
    init

/-- Classified HTTP outcome of one bulk attempt (`fetch_games_bulk`
branches on 200, 429, any other status, and `RequestException`). -/
inductive BulkResp where
  | ok (body : String)
  | rateLimited
  | httpError
  | netError
deriving DecidableEq

/-- The retry loop of `fetch_games_bulk`, analogous to `fetchLoop`:
200 parses the body with the splitter, other statuses return the empty
dict, 429 backs off `5 * (attempt + 1)` seconds, network errors back
off 2 seconds while attempts remain. -/
def bulkLoop (isBlank : String → Bool) (extractId : String → Option String)
    (resp : ℕ → BulkResp) : ℕ → ℕ → List (String × String) × List Ev
  | 0, _ => ([], [])
  | fuel + 1, attempt =>
    match resp attempt with
    | .ok body => (parseBulkResponse isBlank extractId body, [.acq, .req attempt])
    | .httpError => ([], [.acq, .req attempt])
    | .rateLimited =>
      let rest := bulkLoop isBlank extractId resp fuel (attempt + 1)
      (rest.1, .acq :: .req attempt :: .sleep (5 * (attempt + 1)) :: rest.2)
    | .netError =>
      if 0 < fuel then
        let rest := bulkLoop isBlank extractId resp fuel (attempt + 1)
        (rest.1, .acq :: .req attempt :: .sleep 2 :: rest.2)
      else ([], [.acq, .req attempt])

/-- `fetch_games_bulk`: the `if not game_ids: return {}` guard sits
before any permit acquisition or network traffic. -/
def fetch_games_bulk (isBlank : String → Bool) (extractId : String → Option String)
    (resp : ℕ → BulkResp) (game_ids : List String) :
    List (String × String) × List Ev :=
  if game_ids.isEmpty then ([], [])
  else bulkLoop isBlank extractId resp MAX_RETRIES 0

/-! ## Move decoding (`pgn_to_uci_moves`) -/

/-- `pgn_to_uci_moves`, abstracting the external `chess.pgn` library as
`read_game : String → Option (List String)` (the mainline of the parsed
game as UCI strings, `none` when `read_game` yields no game or raises).
The source returns `uci_moves if uci_moves else None`: an empty
mainline becomes `None`. -/
def pgn_to_uci_moves (read_game : String → Option (List String))
    (pgn_text : String) : Option (List String) :=
  match read_game pgn_text with
  | none => none
  | some moves => if moves.isEmpty then none else some moves

/-! ## BatchReconciler (`process_game_batch`)

Modeled over per-id oracles: `bulk g` is the lookup of `g` in the dict
returned by `fetch_games_bulk` for this batch, `fetchOne g` the result
of `fetch_game_pgn g`, and `decode` is `pgn_to_uci_moves`. -/

/-- An output record: `{"id": ..., "moves": [...]}`. -/
structure OutputRecord where
  id : String
  moves : List String
deriving DecidableEq

/-- First loop of `process_game_batch`: ids present in the bulk dict,
decoded and emitted in input order (ids whose decode fails are
dropped). -/
def bulkPass (bulk : String → Option String) (decode : String → Option (List String))
    (game_ids : List String) : List OutputRecord :=
  game_ids.filterMap fun g =>
    (bulk g).bind fun pgn => (decode pgn).map fun mv => ⟨g, mv⟩

/-- `missing_ids`: the input ids absent from the bulk dict, in input
order. -/
def missingIds (bulk : String → Option String) (game_ids : List String) :
    List String :=
  game_ids.filter fun g => (bulk g).isNone

/-- Second loop of `process_game_batch`: sequential single-game
fallback over the missing ids. -/
def fallbackPass (fetchOne : String → Option String)
    (decode : String → Option (List String)) (ids : List String) :
    List OutputRecord :=
  ids.filterMap fun g =>
    (fetchOne g).bind fun pgn => (decode pgn).map fun mv => ⟨g, mv⟩

/-- `process_game_batch`: bulk pass followed by the fallback pass over
the missing ids, results accumulated in that order. -/
def process_game_batch (bulk fetchOne : String → Option String)
    (decode : String → Option (List String)) (game_ids : List String) :
    List OutputRecord :=
  bulkPass bulk decode game_ids ++
    fallbackPass fetchOne decode (missingIds bulk game_ids)

/-- Net per-id outcome of `process_game_batch` for one id: ids found in
the bulk dict are decoded directly (no fallback even when decoding
fails); ids missing from it go through the single fetcher. -/
def gameOutcome (bulk fetchOne : String → Option String)
    (decode : String → Option (List String)) (g : String) :
    Option (List String) :=
  match bulk g with
  | some pgn => decode pgn
  | none => (fetchOne g).bind decode

/-! ## ResumeIndex (`load_existing_games`)

A line of the existing JSONL file is modeled by the outcome of the
source's handling.  The inner `try` catches only
`json.JSONDecodeError`, so on a line whose JSON does parse, any
exception raised by `if 'id' in entry: existing.add(entry['id'])`
escapes to the outer `except Exception` handler, which ends the scan
and returns the ids accumulated so far.  Case by case:

  * `invalid`: `json.loads` fails; the inner handler skips the line.
  * `obj id? moves?`: a JSON object with its optional string `id` and
    `moves` fields.  A present string id is added to the set; an object
    with no `id` key is skipped.  An object whose `id` value is a
    non-string hashable (e.g. a number) is added but can never equal a
    game-id string, so it is modeled as `obj none`.
  * `objUnhashableId`: an object whose `id` value is unhashable (a list
    or object, e.g. the line `{"id": []}`): `existing.add` raises
    `TypeError`, aborting the scan.
  * `arrOrStrNoId`: a JSON list or string for which the membership test
    `'id' in entry` is `False` (e.g. `[1, 2]` or `"abc"`); skipped.
  * `arrOrStrWithId`: a JSON list containing the element `"id"` or a
    string containing `"id"` as a substring (e.g. `["id"]` or
    `"hide"`): the membership test succeeds and `entry['id']` then
    raises `TypeError` (non-integer index), aborting the scan.
  * `scalar`: a non-container value such as `5`, `null` or `true`, for
    which `'id' in entry` itself raises `TypeError`, aborting the scan.
  * `blank`: skipped before parsing. -/
inductive Line where
  | obj (idField : Option String) (movesField : Option (List String))
  | objUnhashableId
  | arrOrStrNoId
  | arrOrStrWithId
  | scalar
  | invalid (raw : String)
  | blank
deriving DecidableEq

/-- Does processing the line raise an uncaught exception (abort the
scan)?  True for non-container JSON (`TypeError` in `'id' in entry`),
for lists/strings on which the membership test succeeds (`TypeError` in
`entry['id']`), and for objects with an unhashable id value
(`TypeError` in `existing.add`). -/
def isAborting : Line → Bool
  | .scalar => true
  | .arrOrStrWithId => true
  | .objUnhashableId => true
  | _ => false

/-- The line-scanning loop of `load_existing_games`, accumulating the
`existing` set; a line whose processing raises returns the partial set
(the outer exception handler). -/
def scanLines : List Line → Finset String → Finset String
  | [], acc => acc
  | .obj (some i) _ :: rest, acc => scanLines rest (insert i acc)
  | .obj none _ :: rest, acc => scanLines rest acc
  | .arrOrStrNoId :: rest, acc => scanLines rest acc
  | .invalid _ :: rest, acc => scanLines rest acc
  | .blank :: rest, acc => scanLines rest acc
  | .objUnhashableId :: _, acc => acc
  | .arrOrStrWithId :: _, acc => acc
  | .scalar :: _, acc => acc

/-- `load_existing_games`: absent file (`jsonl_path.exists()` false)
yields the empty set, otherwise the lines are scanned. -/
def load_existing_games : Option (List Line) → Finset String
  | none => ∅
  | some lines => scanLines lines ∅

/-! ## BucketOrchestrator (`process_bucket`) -/

/-- `games_to_fetch = sorted([gid for gid in all_game_ids if gid not in
existing_games])`, with `existing_games = load_existing_games(path)`;
`sorted` on Python strings is the lexicographic order on code points,
i.e. the `≤` of `String`.  `all_game_ids` is the bucket's id set; the
source materializes it as a Python set, modeled as a duplicate-free
list in arbitrary order. -/
def games_to_fetch (all_game_ids : List String) (file : Option (List Line)) :
    List String :=
  List.insertionSort (· ≤ ·)
    (all_game_ids.filter fun g => decide (g ∉ load_existing_games file))

/-- Batch splitting `games_to_fetch[i:i + BATCH_SIZE]`, fuel-indexed so
that it reduces definitionally (`fuel` bounds the recursion depth and
`l.length` is always enough fuel). -/
def toBatchesAux (sz : ℕ) : ℕ → List String → List (List String)
  | 0, _ => []
  | _, [] => []
  | fuel + 1, x :: xs => (x :: xs).take sz :: toBatchesAux sz fuel (xs.drop (sz - 1))

/-- Batch splitting of the to-fetch list into slices of `sz`. -/
def toBatches (sz : ℕ) (l : List String) : List (List String) :=
  toBatchesAux sz l.length l

/-- `process_bucket`, from the point where the bucket's id set is in
hand: resume-filter, early return when nothing is left to fetch,
batch-wise fetching, and a single append of all results (the source
skips the write when `all_results` is empty; an absent file is created
by the append).  Worker threads return batch results in completion
order, a permutation of submission order that no claim below depends
on; the model uses submission order. -/
def process_bucket (bulk fetchOne : String → Option String)
    (decode : String → Option (List String)) (all_game_ids : List String)
    (file : Option (List Line)) : Option (List Line) :=
  let to_fetch := games_to_fetch all_game_ids file
  if to_fetch.isEmpty then file
  else
    let all_results :=
      (toBatches BATCH_SIZE to_fetch).flatMap
        (process_game_batch bulk fetchOne decode)
    if all_results.isEmpty then file
    else some ((file.getD []) ++
      all_results.map fun r => Line.obj (some r.id) (some r.moves))

/-- The set of record ids present in an output file (ids of all lines
that parse as objects carrying an id). -/
def fileIds : Option (List Line) → Finset String
  | none => ∅
  | some lines =>
    lines.foldr
      (fun l s =>
        match l with
        | Line.obj (some i) _ => insert i s
        | _ => s)
      ∅

/-- Does the file content leave the resume scan unaborted (no line
whose processing raises an uncaught exception)? -/
def noAbort : Option (List Line) → Prop
  | none => True
  | some lines => lines.all (fun l => !isAborting l) = true

/-! ## Concrete oracles used by witnesses and counterexamples -/

/-- A concrete stand-in for the Site-header id extraction (prefix guard
plus regex): recognizes exactly one well-formed `Site` header.  On any
other line (in particular on a malformed record's lines) the guard or
regex fails. -/
def extractIdTest (line : String) : Option String :=
  if line = "[Site \"https://lichess.org/abcdefgh\"]" then some "abcdefgh"
  else none

/-- A concrete stand-in for the blank-line test `not line.strip()`,
adequate for lines that carry no stray whitespace. -/
def isBlankCx : String → Bool := fun l => l = ""

/-- Output-file content for the resume witness: one well-formed record
line for `g1` (concrete scenario 2 of the specification). -/
def fileG1 : Option (List Line) := some [Line.obj (some "g1") (some ["e2e4"])]

/-- Concrete bulk-response line list with one well-formed record, a
separating blank line, and a trailing malformed record (no parseable
Site header) that is not terminated by a blank line. -/
def bulkRespCx : List String :=
  ["[Site \"https://lichess.org/abcdefgh\"]", "1. e4 e5", "", "junk"]

/-- Bulk oracle for the idempotence counterexample: only `g1` is
returned by the bulk endpoint. -/
def bulkCx : String → Option String := fun g => if g = "g1" then some "P" else none

/-- Decoder oracle for the idempotence counterexample. -/
def decodeCx : String → Option (List String) :=
  fun p => if p = "P" then some ["e2e4"] else none

/-- Single-fetch oracle for the idempotence counterexample: always
fails. -/
def fetchOneCx : String → Option String := fun _ => none

/-- Bulk oracle returning records for `g1` and `g3` but not `g2`
(concrete scenario 1 of the specification). -/
def bulkG13 : String → Option String := fun g =>
  if g = "g1" then some "P1" else if g = "g3" then some "P3" else none

/-! # Theorems -/

/-! ## Shared helper lemmas -/

theorem isNone_eq_not_isSome (o : Option String) : o.isNone = !o.isSome := by
  cases o <;> rfl

theorem pgn_to_uci_moves_ne_nil (read_game : String → Option (List String))
    (pgn : String) (mv : List String)
    (h : pgn_to_uci_moves read_game pgn = some mv) : mv ≠ [] := by
  unfold pgn_to_uci_moves at h
  cases hr : read_game pgn with
  | none => rw [hr] at h; exact absurd h (by simp)
  | some moves =>
    rw [hr] at h
    by_cases he : moves.isEmpty
    · simp [he] at h
    · simp [he] at h
      subst h
      simpa [List.isEmpty_iff] using he

theorem bulkPass_map_id_sublist (bulk : String → Option String)
    (decode : String → Option (List String)) (ids : List String) :
    List.Sublist ((bulkPass bulk decode ids).map OutputRecord.id)
      (ids.filter fun g => (bulk g).isSome) := by
  induction ids with
  | nil => simp [bulkPass]
  | cons g rest ih =>
    cases hb : bulk g with
    | none => simpa [bulkPass, List.filterMap_cons, List.filter_cons, hb] using ih
    | some pgn =>
      cases hd : decode pgn with
      | none =>
        simp only [bulkPass, List.filterMap_cons, List.filter_cons, hb,
          Option.some_bind, hd, Option.map_none', Option.isSome_some]
        simp only [if_pos trivial]
        exact (ih.trans (List.sublist_cons_self _ _))
      | some mv =>
        simp only [bulkPass, List.filterMap_cons, List.filter_cons, hb,
          Option.some_bind, hd, Option.map_some', Option.isSome_some,
          List.map_cons]
        simp only [if_pos trivial]
        exact ih.cons₂ g

theorem fallbackPass_map_id_sublist (fetchOne : String → Option String)
    (decode : String → Option (List String)) (ids : List String) :
    List.Sublist ((fallbackPass fetchOne decode ids).map OutputRecord.id) ids := by
  induction ids with
  | nil => simp [fallbackPass]
  | cons g rest ih =>
    cases hb : (fetchOne g).bind fun pgn =>
        (decode pgn).map fun mv => (⟨g, mv⟩ : OutputRecord) with
    | none =>
      simp only [fallbackPass, List.filterMap_cons, hb]
      exact ih.trans (List.sublist_cons_self _ _)
    | some r =>
      have hid : r.id = g := by
        rcases Option.bind_eq_some.mp hb with ⟨pgn, _, hd⟩
        rcases Option.map_eq_some'.mp hd with ⟨mv, _, hrec⟩
        rw [← hrec]
      simp only [fallbackPass, List.filterMap_cons, hb, List.map_cons, hid]
      exact ih.cons₂ g

theorem process_game_batch_map_id_sublist (bulk fetchOne : String → Option String)
    (decode : String → Option (List String)) (ids : List String) :
    List.Sublist ((process_game_batch bulk fetchOne decode ids).map OutputRecord.id)
      ((ids.filter fun g => (bulk g).isSome) ++
        (ids.filter fun g => !(bulk g).isSome)) := by
  have h₂ := fallbackPass_map_id_sublist fetchOne decode (missingIds bulk ids)
  have hmiss : missingIds bulk ids = ids.filter fun g => !(bulk g).isSome := by
    unfold missingIds
    exact List.filter_congr fun g _ => isNone_eq_not_isSome (bulk g)
  rw [hmiss] at h₂
  have h₁ := bulkPass_map_id_sublist bulk decode ids
  unfold process_game_batch
  rw [List.map_append, hmiss]
  exact h₁.append h₂

theorem filter_isSome_append_perm (bulk : String → Option String) (ids : List String) :
    List.Perm
      ((ids.filter fun g => (bulk g).isSome) ++ (ids.filter fun g => !(bulk g).isSome))
      ids :=
  ids.filter_append_perm fun g => (bulk g).isSome

/-! ## C10: empty id list short-circuits the bulk fetcher -/

/-- C10: called with an empty id list, `fetch_games_bulk` returns the
empty mapping immediately: no rate-limiter permit is acquired and no
network request is issued. -/
theorem fetch_games_bulk_empty_ids (isBlank : String → Bool)
    (extractId : String → Option String) (resp : ℕ → BulkResp) :
    fetch_games_bulk isBlank extractId resp [] = ([], []) ∧
    (fetch_games_bulk isBlank extractId resp []).2.countP isAcq = 0 ∧
    (fetch_games_bulk isBlank extractId resp []).2.countP isReq = 0 :=
  ⟨rfl, rfl, rfl⟩

/-! ## C7: single-game fetcher retry discipline -/

theorem fetchLoop_req_le (resp : ℕ → FetchResp) :
    ∀ fuel attempt, ((fetchLoop resp fuel attempt).2.countP isReq) ≤ fuel := by
  intro fuel
  induction fuel with
  | zero => intro attempt; simp [fetchLoop]
  | succ n ih =>
    intro attempt
    cases h : resp attempt with
    | ok body => simp [fetchLoop, h, List.countP_cons, isReq]
    | notFound => simp [fetchLoop, h, List.countP_cons, isReq]
    | httpError => simp [fetchLoop, h, List.countP_cons, isReq]
    | rateLimited =>
      have := ih (attempt + 1)
      simp [fetchLoop, h, List.countP_cons, isReq]
      omega
    | netError =>
      rcases Nat.eq_zero_or_pos n with hn | hn
      · subst hn; simp [fetchLoop, h, List.countP_cons, isReq]
      · have := ih (attempt + 1)
        simp [fetchLoop, h, if_pos hn, List.countP_cons, isReq]
        omega

theorem fetchLoop_acq_eq_req (resp : ℕ → FetchResp) :
    ∀ fuel attempt,
      ((fetchLoop resp fuel attempt).2.countP isAcq)
        = ((fetchLoop resp fuel attempt).2.countP isReq) := by
  intro fuel
  induction fuel with
  | zero => intro attempt; simp [fetchLoop]
  | succ n ih =>
    intro attempt
    cases h : resp attempt with
    | ok body => simp [fetchLoop, h, List.countP_cons, isReq, isAcq]
    | notFound => simp [fetchLoop, h, List.countP_cons, isReq, isAcq]
    | httpError => simp [fetchLoop, h, List.countP_cons, isReq, isAcq]
    | rateLimited =>
      have := ih (attempt + 1)
      simp [fetchLoop, h, List.countP_cons, isReq, isAcq]
      omega
    | netError =>
      rcases Nat.eq_zero_or_pos n with hn | hn
      · subst hn; simp [fetchLoop, h, List.countP_cons, isReq, isAcq]
      · have := ih (attempt + 1)
        simp [fetchLoop, h, if_pos hn, List.countP_cons, isReq, isAcq]
        omega

theorem fetchLoop_okTrace (resp : ℕ → FetchResp) :
    ∀ fuel attempt, okTrace (fetchLoop resp fuel attempt).2 = true := by
  intro fuel
  induction fuel with
  | zero => intro attempt; simp [fetchLoop, okTrace]
  | succ n ih =>
    intro attempt
    cases h : resp attempt with
    | ok body => simp [fetchLoop, h, okTrace]
    | notFound => simp [fetchLoop, h, okTrace]
    | httpError => simp [fetchLoop, h, okTrace]
    | rateLimited =>
      have := ih (attempt + 1)
      simp [fetchLoop, h, okTrace]
      exact this
    | netError =>
      rcases Nat.eq_zero_or_pos n with hn | hn
      · subst hn; simp [fetchLoop, h, okTrace]
      · have := ih (attempt + 1)
        simp [fetchLoop, h, if_pos hn, okTrace]
        exact this

/-- C7: the single fetcher makes at most `MAX_RETRIES = 3` network
attempts and acquires one rate-limiter permit immediately before every
attempt (retries included); a 404 terminates at once with no record and
no retry; a 429 on (1-based) attempt `n` sleeps `5 * n` seconds and
retries; a 200 ends the loop with that attempt's body, so a 429 on the
first attempt followed by a 200 on the second yields the second
attempt's record. -/
theorem fetch_game_pgn_spec (resp : ℕ → FetchResp) :
    ((fetch_game_pgn resp).2.countP isReq ≤ MAX_RETRIES) ∧
    ((fetch_game_pgn resp).2.countP isAcq = (fetch_game_pgn resp).2.countP isReq) ∧
    (okTrace (fetch_game_pgn resp).2 = true) ∧
    (resp 0 = .notFound → fetch_game_pgn resp = (none, [.acq, .req 0])) ∧
    (∀ b, resp 0 = .ok b → fetch_game_pgn resp = (some b, [.acq, .req 0])) ∧
    (∀ b, resp 0 = .rateLimited → resp 1 = .ok b →
      fetch_game_pgn resp = (some b, [.acq, .req 0, .sleep 5, .acq, .req 1])) ∧
    (resp 0 = .rateLimited → resp 1 = .rateLimited → resp 2 = .rateLimited →
      fetch_game_pgn resp =
        (none, [.acq, .req 0, .sleep 5, .acq, .req 1, .sleep 10, .acq, .req 2,
          .sleep 15])) := by
  refine ⟨fetchLoop_req_le resp MAX_RETRIES 0, fetchLoop_acq_eq_req resp MAX_RETRIES 0,
    fetchLoop_okTrace resp MAX_RETRIES 0, ?_, ?_, ?_, ?_⟩
  · intro h0
    simp [fetch_game_pgn, MAX_RETRIES, fetchLoop, h0]
  · intro b h0
    simp [fetch_game_pgn, MAX_RETRIES, fetchLoop, h0]
  · intro b h0 h1
    simp [fetch_game_pgn, MAX_RETRIES, fetchLoop, h0, h1]
  · intro h0 h1 h2
    simp [fetch_game_pgn, MAX_RETRIES, fetchLoop, h0, h1, h2]

/-- Concrete instantiation of C7: a 429 on the first attempt and a 200
on the second yield the second attempt's body after the mandated
5-second sleep. -/
theorem fetch_game_pgn_spec_witness :
    fetch_game_pgn (fun n => if n = 0 then .rateLimited else .ok "pgn")
      = (some "pgn", [.acq, .req 0, .sleep 5, .acq, .req 1]) :=
  ((fetch_game_pgn_spec
      (fun n => if n = 0 then .rateLimited else .ok "pgn")).2.2.2.2.2.1) "pgn" rfl rfl

/-! ## C5: the missing set and the fallback calls -/

/-- C5: the missing set is exactly the input ids absent from the bulk
mapping's keys, in input order; the single fetcher is then invoked once
per element of that list, so for a batch of distinct ids each missing
id is attempted exactly once and no other id is ever single-fetched;
when the bulk mapping is empty every id of the batch is attempted. -/
theorem missingIds_spec (bulk : String → Option String) (ids : List String)
    (h : ids.Nodup) :
    (∀ g, g ∈ missingIds bulk ids ↔ g ∈ ids ∧ bulk g = none) ∧
    (∀ g, g ∈ ids → bulk g = none → (missingIds bulk ids).count g = 1) ∧
    (∀ g, ¬(g ∈ ids ∧ bulk g = none) → (missingIds bulk ids).count g = 0) ∧
    ((∀ g, bulk g = none) → missingIds bulk ids = ids) := by
  have hmem : ∀ g, g ∈ missingIds bulk ids ↔ g ∈ ids ∧ bulk g = none := by
    intro g
    unfold missingIds
    rw [List.mem_filter]
    simp [Option.isNone_iff_eq_none]
  refine ⟨hmem, ?_, ?_, ?_⟩
  · intro g hg hb
    have hnd : (missingIds bulk ids).Nodup := h.filter _
    exact List.count_eq_one_of_mem hnd ((hmem g).mpr ⟨hg, hb⟩)
  · intro g hg
    exact List.count_eq_zero.mpr fun hm => hg ((hmem g).mp hm)
  · intro hall
    unfold missingIds
    exact List.filter_eq_self.mpr fun g _ => by simp [hall g]

/-- Concrete instantiation of C5 (scenario 1): batch `g1, g2, g3`, bulk
returns only `g1` and `g3`; the fallback list is exactly one call, for
`g2`. -/
theorem missingIds_spec_witness :
    List.Nodup ["g1", "g2", "g3"] ∧
    missingIds bulkG13 ["g1", "g2", "g3"] = ["g2"] ∧
    (missingIds bulkG13 ["g1", "g2", "g3"]).count "g2" = 1 :=
  ⟨by decide, by decide,
    (missingIds_spec bulkG13 ["g1", "g2", "g3"] (by decide)).2.1 "g2" (by decide)
      (by decide)⟩

/-! ## C4: at most one output record per input id -/

/-- C4: for a batch of pairwise-distinct ids, `process_game_batch`
emits pairwise-distinct ids, every emitted id is an input id, and the
number of records is at most the number of input ids. -/
theorem process_game_batch_unique (bulk fetchOne : String → Option String)
    (decode : String → Option (List String)) (ids : List String)
    (h : ids.Nodup) :
    ((process_game_batch bulk fetchOne decode ids).map OutputRecord.id).Nodup ∧
    (∀ r ∈ process_game_batch bulk fetchOne decode ids, r.id ∈ ids) ∧
    (process_game_batch bulk fetchOne decode ids).length ≤ ids.length := by
  have hsub := process_game_batch_map_id_sublist bulk fetchOne decode ids
  have hperm := filter_isSome_append_perm bulk ids
  refine ⟨?_, ?_, ?_⟩
  · exact (hperm.nodup_iff.mpr h).sublist hsub
  · intro r hr
    exact hperm.subset (hsub.subset (List.mem_map_of_mem OutputRecord.id hr))
  · calc (process_game_batch bulk fetchOne decode ids).length
        = ((process_game_batch bulk fetchOne decode ids).map OutputRecord.id).length := by
          rw [List.length_map]
      _ ≤ _ := hsub.length_le
      _ = ids.length := hperm.length_eq

/-- Concrete instantiation of C4. -/
theorem process_game_batch_unique_witness :
    List.Nodup ["g1", "g2", "g3"] ∧
    ((process_game_batch bulkG13 fetchOneCx decodeCx ["g1", "g2", "g3"]).map
        OutputRecord.id).Nodup ∧
    (process_game_batch bulkG13 fetchOneCx decodeCx ["g1", "g2", "g3"]).length ≤ 3 :=
  ⟨by decide,
    (process_game_batch_unique bulkG13 fetchOneCx decodeCx _ (by decide)).1,
    (process_game_batch_unique bulkG13 fetchOneCx decodeCx _ (by decide)).2.2⟩

/-! ## C9: emitted records have non-empty move lists -/

/-- C9: every record emitted by `process_game_batch` under the real
decoder (`pgn_to_uci_moves`) has a non-empty moves sequence, and hence
every line that `process_bucket` appends to the output file carries a
non-empty moves array (a line of the result file with empty moves can
only have been present before the run). -/
theorem process_game_batch_moves_nonempty (bulk fetchOne : String → Option String)
    (read_game : String → Option (List String)) (ids : List String)
    (all_game_ids : List String) (file : Option (List Line)) :
    (∀ r ∈ process_game_batch bulk fetchOne (pgn_to_uci_moves read_game) ids,
      r.moves ≠ []) ∧
    (∀ g mv,
      Line.obj (some g) (some mv) ∈
        (process_bucket bulk fetchOne (pgn_to_uci_moves read_game) all_game_ids
          file).getD [] →
      Line.obj (some g) (some mv) ∈ file.getD [] ∨ mv ≠ []) := by
  have hbatch : ∀ l r, r ∈ process_game_batch bulk fetchOne (pgn_to_uci_moves read_game) l →
      r.moves ≠ [] := by
    intro l r hr
    unfold process_game_batch at hr
    rcases List.mem_append.mp hr with hr | hr
    · rcases List.mem_filterMap.mp hr with ⟨g, _, hg⟩
      rcases Option.bind_eq_some.mp hg with ⟨pgn, _, hd⟩
      rcases Option.map_eq_some'.mp hd with ⟨mv, hmv, hrec⟩
      have := pgn_to_uci_moves_ne_nil read_game pgn mv hmv
      rw [← hrec]
      simpa using this
    · rcases List.mem_filterMap.mp hr with ⟨g, _, hg⟩
      rcases Option.bind_eq_some.mp hg with ⟨pgn, _, hd⟩
      rcases Option.map_eq_some'.mp hd with ⟨mv, hmv, hrec⟩
      have := pgn_to_uci_moves_ne_nil read_game pgn mv hmv
      rw [← hrec]
      simpa using this
  refine ⟨hbatch ids, ?_⟩
  intro g mv hmem
  unfold process_bucket at hmem
  by_cases h1 : (games_to_fetch all_game_ids file).isEmpty
  · rw [if_pos h1] at hmem
    exact Or.inl hmem
  · rw [if_neg h1] at hmem
    by_cases h2 :
      ((toBatches BATCH_SIZE (games_to_fetch all_game_ids file)).flatMap
        (process_game_batch bulk fetchOne (pgn_to_uci_moves read_game))).isEmpty
    · rw [if_pos h2] at hmem
      exact Or.inl hmem
    · rw [if_neg h2] at hmem
      simp only [Option.getD_some] at hmem
      rcases List.mem_append.mp hmem with hold | hnew
      · exact Or.inl hold
      · rcases List.mem_map.mp hnew with ⟨r, hr, hline⟩
        rcases List.mem_flatMap.mp hr with ⟨batch, _, hrb⟩
        have : mv = r.moves := by
          cases hline
          rfl
        right
        rw [this]
        exact hbatch batch r hrb

/-- Concrete instantiation of C9: the record emitted for `g1` has a
non-empty moves list. -/
theorem process_game_batch_moves_nonempty_witness :
    (⟨"g1", ["e2e4"]⟩ : OutputRecord) ∈
        process_game_batch bulkCx fetchOneCx (pgn_to_uci_moves decodeCx) ["g1"] ∧
    (["e2e4"] : List String) ≠ [] :=
  ⟨by decide,
    (process_game_batch_moves_nonempty bulkCx fetchOneCx decodeCx ["g1"] [] none).1
      ⟨"g1", ["e2e4"]⟩ (by decide)⟩

/-! ## C6: the resume scan -/

theorem scanLines_mem_of_no_abort :
    ∀ (lines : List Line) (acc : Finset String) (x : String),
      (∀ l ∈ lines, isAborting l = false) →
      (x ∈ scanLines lines acc ↔ x ∈ acc ∨ ∃ mv, Line.obj (some x) mv ∈ lines) := by
  intro lines
  induction lines with
  | nil => intro acc x _; simp [scanLines]
  | cons l rest ih =>
    intro acc x hns
    have hrest : ∀ l ∈ rest, isAborting l = false := fun l hl =>
      hns l (List.mem_cons_of_mem _ hl)
    cases l with
    | obj idf mvf =>
      cases idf with
      | none =>
        rw [show scanLines (Line.obj none mvf :: rest) acc = scanLines rest acc from rfl,
          ih acc x hrest]
        simp
      | some i =>
        rw [show scanLines (Line.obj (some i) mvf :: rest) acc
            = scanLines rest (insert i acc) from rfl, ih _ x hrest]
        constructor
        · rintro (hi | ⟨mv, hmv⟩)
          · rcases Finset.mem_insert.mp hi with rfl | hacc
            · exact Or.inr ⟨mvf, List.mem_cons_self _ _⟩
            · exact Or.inl hacc
          · exact Or.inr ⟨mv, List.mem_cons_of_mem _ hmv⟩
        · rintro (hacc | ⟨mv, hmv⟩)
          · exact Or.inl (Finset.mem_insert_of_mem hacc)
          · rcases List.mem_cons.mp hmv with heq | hmem
            · cases heq
              exact Or.inl (Finset.mem_insert_self _ _)
            · exact Or.inr ⟨mv, hmem⟩
    | objUnhashableId =>
      exact absurd (hns Line.objUnhashableId (List.mem_cons_self _ _))
        (by simp [isAborting])
    | arrOrStrNoId =>
      rw [show scanLines (Line.arrOrStrNoId :: rest) acc = scanLines rest acc from rfl,
        ih acc x hrest]
      simp
    | arrOrStrWithId =>
      exact absurd (hns Line.arrOrStrWithId (List.mem_cons_self _ _))
        (by simp [isAborting])
    | scalar =>
      exact absurd (hns Line.scalar (List.mem_cons_self _ _)) (by simp [isAborting])
    | invalid raw =>
      rw [show scanLines (Line.invalid raw :: rest) acc = scanLines rest acc from rfl,
        ih acc x hrest]
      simp
    | blank =>
      rw [show scanLines (Line.blank :: rest) acc = scanLines rest acc from rfl,
        ih acc x hrest]
      simp

theorem scanLines_skip_invalid :
    ∀ (l₁ : List Line) (raw : String) (l₂ : List Line) (acc : Finset String),
      scanLines (l₁ ++ Line.invalid raw :: l₂) acc = scanLines (l₁ ++ l₂) acc := by
  intro l₁
  induction l₁ with
  | nil => intro raw l₂ acc; rfl
  | cons l rest ih =>
    intro raw l₂ acc
    cases l with
    | obj idf mvf => cases idf <;> simp [scanLines, ih]
    | objUnhashableId => rfl
    | arrOrStrNoId => simp [scanLines, ih]
    | arrOrStrWithId => rfl
    | scalar => rfl
    | invalid r => simp [scanLines, ih]
    | blank => simp [scanLines, ih]

theorem scanLines_takeWhile :
    ∀ (lines : List Line) (acc : Finset String),
      scanLines lines acc = scanLines (lines.takeWhile fun l => !isAborting l) acc := by
  intro lines
  induction lines with
  | nil => intro acc; rfl
  | cons l rest ih =>
    intro acc
    cases l with
    | obj idf mvf => cases idf <;> simp [scanLines, isAborting, List.takeWhile_cons, ih]
    | objUnhashableId => simp [scanLines, isAborting, List.takeWhile_cons]
    | arrOrStrNoId => simp [scanLines, isAborting, List.takeWhile_cons, ih]
    | arrOrStrWithId => simp [scanLines, isAborting, List.takeWhile_cons]
    | scalar => simp [scanLines, isAborting, List.takeWhile_cons]
    | invalid r => simp [scanLines, isAborting, List.takeWhile_cons, ih]
    | blank => simp [scanLines, isAborting, List.takeWhile_cons, ih]

/-- C6 (amended): an absent file yields the empty set; a line that
fails to parse is skipped without aborting the scan; and the result is
exactly the ids of the object lines in the longest prefix containing no
line whose processing raises an uncaught exception — a non-container
JSON value (`TypeError` in `'id' in entry`), a list or string on which
the `'id'` membership test succeeds (`TypeError` in `entry['id']`), or
an object with an unhashable id value (`TypeError` in `existing.add`).
In particular, when no such aborting line exists, the result is exactly
the ids of all object lines of the file. -/
theorem load_existing_games_spec :
    (load_existing_games none = ∅) ∧
    (∀ lines, (∀ l ∈ lines, isAborting l = false) →
      ∀ x, x ∈ load_existing_games (some lines) ↔
        ∃ mv, Line.obj (some x) mv ∈ lines) ∧
    (∀ l₁ raw l₂, load_existing_games (some (l₁ ++ Line.invalid raw :: l₂))
        = load_existing_games (some (l₁ ++ l₂))) ∧
    (∀ lines, load_existing_games (some lines)
        = load_existing_games (some (lines.takeWhile fun l => !isAborting l))) := by
  refine ⟨rfl, ?_, ?_, ?_⟩
  · intro lines hns x
    rw [show load_existing_games (some lines) = scanLines lines ∅ from rfl,
      scanLines_mem_of_no_abort lines ∅ x hns]
    simp
  · intro l₁ raw l₂
    exact scanLines_skip_invalid l₁ raw l₂ ∅
  · intro lines
    exact scanLines_takeWhile lines ∅

/-- Counterexample to C6 as stated: a parse-successful first line can
abort the scan, so `g1` on the second line is not recovered even though
its line parses and carries an id.  Two concrete aborting first lines:
the line `5` (non-container JSON, `TypeError` in `'id' in entry`,
modeled by `Line.scalar`) and the line `"hide"` (a JSON string in which
the substring test `'id' in entry` succeeds and `entry['id']` then
raises `TypeError`, modeled by `Line.arrOrStrWithId`). -/
theorem load_existing_games_cx :
    Line.obj (some "g1") (some ["e2e4"]) ∈
        [Line.scalar, Line.obj (some "g1") (some ["e2e4"])] ∧
    "g1" ∉ load_existing_games
        (some [Line.scalar, Line.obj (some "g1") (some ["e2e4"])]) ∧
    "g1" ∉ load_existing_games
        (some [Line.arrOrStrWithId, Line.obj (some "g1") (some ["e2e4"])]) := by
  refine ⟨?_, ?_, ?_⟩
  · decide
  · decide
  · decide

/-- Concrete instantiation of C6 (amended): in a file with no aborting
line the scan recovers exactly the object-line ids. -/
theorem load_existing_games_spec_witness :
    (∀ l ∈ [Line.obj (some "g1") (some ["e2e4"])], isAborting l = false) ∧
    ("g1" ∈ load_existing_games (some [Line.obj (some "g1") (some ["e2e4"])]) ↔
      ∃ mv, Line.obj (some "g1") mv ∈ [Line.obj (some "g1") (some ["e2e4"])]) :=
  ⟨by decide, load_existing_games_spec.2.1 _ (by decide) "g1"⟩

/-! ## C8: the bulk-response splitter and trailing records -/

theorem foldl_processRespLine_nonblank (isBlank : String → Bool)
    (extractId : String → Option String) :
    ∀ (T : List String) (d : List (String × String)) (c : List String)
      (i : Option String),
      (∀ l ∈ T, isBlank l = false) →
      T.foldl (processRespLine isBlank extractId) ⟨d, c, i⟩ =
        ⟨d, c ++ T, siteIdFold extractId i T⟩ := by
  intro T
  induction T with
  | nil => intro d c i _; simp [siteIdFold]
  | cons line rest ih =>
    intro d c i hnb
    have hline : isBlank line = false := hnb line (List.mem_cons_self _ _)
    have hrest : ∀ l ∈ rest, isBlank l = false := fun l hl =>
      hnb l (List.mem_cons_of_mem _ hl)
    rw [List.foldl_cons]
    have hstep : processRespLine isBlank extractId ⟨d, c, i⟩ line =
        ⟨d, c ++ [line],
          match extractId line with
          | some g => some g
          | none => i⟩ := by
      unfold processRespLine
      rw [hline]
      simp
    rw [hstep, ih d (c ++ [line]) _ hrest]
    simp only [List.append_assoc, List.singleton_append]
    rfl

/-- C8 (amended): a trailing record not terminated by a final blank
line is still captured in the returned mapping provided an id tag was
parsed from one of its lines; its key is the last id tag found in it
and its value the newline-join of its lines.  (A trailing record so
malformed that no id tag can be parsed from it is silently dropped, as
the counterexample shows, because the final flush requires a non-`None`
`game_id`.)  `P` is any prefix of the response whose scan ends with an
empty accumulator and no pending id — e.g. a sequence of complete
blank-line-terminated records — and `T` the non-blank lines of the
trailing record. -/
theorem bulk_trailing_captured (isBlank : String → Bool)
    (extractId : String → Option String) (P T : List String) (g : String)
    (hc : (P.foldl (processRespLine isBlank extractId) ⟨[], [], none⟩).current_game = [])
    (hi : (P.foldl (processRespLine isBlank extractId) ⟨[], [], none⟩).game_id = none)
    (hT : T ≠ []) (hTn : ∀ l ∈ T, isBlank l = false)
    (hg : siteIdFold extractId none T = some g) :
    parseBulkLines isBlank extractId (P ++ T) =
      dictInsert g (String.intercalate "\n" T)
        (parseBulkLines isBlank extractId P) := by
  unfold parseBulkLines
  rw [List.foldl_append]
  have hstE : P.foldl (processRespLine isBlank extractId) ⟨[], [], none⟩ =
      ⟨(P.foldl (processRespLine isBlank extractId) ⟨[], [], none⟩).games, [], none⟩ := by
    cases hst : P.foldl (processRespLine isBlank extractId) ⟨[], [], none⟩ with
    | mk gs cg gi =>
      rw [hst] at hc hi
      simp only at hc hi
      rw [hc, hi]
  rw [hstE, foldl_processRespLine_nonblank isBlank extractId T _ [] none hTn]
  simp only [List.nil_append]
  show flushBulk ⟨_, T, siteIdFold extractId none T⟩ = _
  unfold flushBulk
  rw [hg]
  simp only [List.isEmpty_iff]
  rw [if_neg hT]

/-- Counterexample to C8 as stated: a response holding one complete
record for `abcdefgh` followed by a blank line and a trailing
unterminated malformed record (the line `junk`, from which no id tag
can be parsed) yields a mapping containing only the first record — the
malformed trailing record is silently dropped, not captured. -/
theorem bulk_trailing_malformed_dropped :
    parseBulkLines isBlankCx extractIdTest bulkRespCx =
      [("abcdefgh",
        String.intercalate "\n" ["[Site \"https://lichess.org/abcdefgh\"]", "1. e4 e5"])] :=
  rfl

/-- Concrete instantiation of C8 (amended): an unterminated trailing
record whose Site header does parse is captured. -/
theorem bulk_trailing_captured_witness :
    parseBulkLines isBlankCx extractIdTest
        ([] ++ ["[Site \"https://lichess.org/abcdefgh\"]", "1. e4 e5"]) =
      dictInsert "abcdefgh"
        (String.intercalate "\n" ["[Site \"https://lichess.org/abcdefgh\"]", "1. e4 e5"])
        (parseBulkLines isBlankCx extractIdTest []) :=
  bulk_trailing_captured isBlankCx extractIdTest []
    ["[Site \"https://lichess.org/abcdefgh\"]", "1. e4 e5"] "abcdefgh"
    rfl rfl (by decide) (by decide) rfl

/-! ## C2: the to-fetch set -/

theorem games_to_fetch_mem (all_game_ids : List String) (file : Option (List Line))
    (g : String) :
    g ∈ games_to_fetch all_game_ids file ↔
      g ∈ all_game_ids ∧ g ∉ load_existing_games file := by
  unfold games_to_fetch
  rw [(List.perm_insertionSort _ _).mem_iff, List.mem_filter]
  simp

/-- C2: the list of ids submitted for fetching is precisely
`sorted(bucket_ids - resume_set)`: an id is submitted iff it is a
bucket id absent from the set recovered by the resume scan, the
submitted list is sorted, and when it is empty the run returns with the
output file untouched. -/
theorem games_to_fetch_spec (all_game_ids : List String) (file : Option (List Line)) :
    (∀ g, g ∈ games_to_fetch all_game_ids file ↔
      g ∈ all_game_ids ∧ g ∉ load_existing_games file) ∧
    (games_to_fetch all_game_ids file).Sorted (· ≤ ·) ∧
    (∀ bulk fetchOne decode, games_to_fetch all_game_ids file = [] →
      process_bucket bulk fetchOne decode all_game_ids file = file) := by
  refine ⟨games_to_fetch_mem all_game_ids file, ?_, ?_⟩
  · exact List.sorted_insertionSort _ _
  · intro bulk fetchOne decode h
    unfold process_bucket
    rw [h]
    rfl

/-- Concrete instantiation of C2 (scenario 2): the output file holds a
record for `g1`, the bucket is `g1, g2`; only `g2` is fetched. -/
theorem games_to_fetch_spec_witness :
    games_to_fetch ["g1", "g2"] fileG1 = ["g2"] ∧
    ("g1" ∈ games_to_fetch ["g1", "g2"] fileG1 ↔
      "g1" ∈ ["g1", "g2"] ∧ "g1" ∉ load_existing_games fileG1) :=
  ⟨by decide, (games_to_fetch_spec ["g1", "g2"] fileG1).1 "g1"⟩

/-! ## C3: running the pipeline twice -/

theorem mem_bulkPass (bulk : String → Option String)
    (decode : String → Option (List String)) (ids : List String) (g : String)
    (mv : List String) :
    (⟨g, mv⟩ : OutputRecord) ∈ bulkPass bulk decode ids ↔
      g ∈ ids ∧ ∃ pgn, bulk g = some pgn ∧ decode pgn = some mv := by
  unfold bulkPass
  rw [List.mem_filterMap]
  constructor
  · rintro ⟨a, ha, hEq⟩
    rcases Option.bind_eq_some.mp hEq with ⟨pgn, hb, hm⟩
    rcases Option.map_eq_some'.mp hm with ⟨mv', hd, hrec⟩
    have hag : a = g ∧ mv' = mv := by
      simpa [OutputRecord.mk.injEq] using hrec
    obtain ⟨rfl, rfl⟩ := hag
    exact ⟨ha, pgn, hb, hd⟩
  · rintro ⟨hg, pgn, hb, hd⟩
    exact ⟨g, hg, by rw [hb]; simp [hd]⟩

theorem mem_fallbackPass (fetchOne : String → Option String)
    (decode : String → Option (List String)) (ids : List String) (g : String)
    (mv : List String) :
    (⟨g, mv⟩ : OutputRecord) ∈ fallbackPass fetchOne decode ids ↔
      g ∈ ids ∧ ∃ pgn, fetchOne g = some pgn ∧ decode pgn = some mv := by
  unfold fallbackPass
  rw [List.mem_filterMap]
  constructor
  · rintro ⟨a, ha, hEq⟩
    rcases Option.bind_eq_some.mp hEq with ⟨pgn, hb, hm⟩
    rcases Option.map_eq_some'.mp hm with ⟨mv', hd, hrec⟩
    have hag : a = g ∧ mv' = mv := by
      simpa [OutputRecord.mk.injEq] using hrec
    obtain ⟨rfl, rfl⟩ := hag
    exact ⟨ha, pgn, hb, hd⟩
  · rintro ⟨hg, pgn, hb, hd⟩
    exact ⟨g, hg, by rw [hb]; simp [hd]⟩

theorem mem_process_game_batch (bulk fetchOne : String → Option String)
    (decode : String → Option (List String)) (ids : List String) (g : String)
    (mv : List String) :
    (⟨g, mv⟩ : OutputRecord) ∈ process_game_batch bulk fetchOne decode ids ↔
      g ∈ ids ∧ gameOutcome bulk fetchOne decode g = some mv := by
  unfold process_game_batch
  rw [List.mem_append, mem_bulkPass, mem_fallbackPass]
  unfold gameOutcome
  constructor
  · rintro (⟨hg, pgn, hb, hd⟩ | ⟨hgm, pgn, hf, hd⟩)
    · rw [hb]
      exact ⟨hg, hd⟩
    · have hmm := List.mem_filter.mp hgm
      have hbg : bulk g = none := by
        have := hmm.2
        simpa [Option.isNone_iff_eq_none] using this
      rw [hbg]
      exact ⟨hmm.1, Option.bind_eq_some.mpr ⟨pgn, hf, hd⟩⟩
  · rintro ⟨hg, hout⟩
    cases hb : bulk g with
    | some pgn =>
      rw [hb] at hout
      exact Or.inl ⟨hg, pgn, rfl, hout⟩
    | none =>
      rw [hb] at hout
      rcases Option.bind_eq_some.mp hout with ⟨pgn, hf, hd⟩
      refine Or.inr ⟨List.mem_filter.mpr ⟨hg, by simp [hb]⟩, pgn, hf, hd⟩

theorem toBatchesAux_flatten (n : ℕ) :
    ∀ (fuel : ℕ) (l : List String), l.length ≤ fuel →
      (toBatchesAux (n + 1) fuel l).flatten = l := by
  intro fuel
  induction fuel with
  | zero =>
    intro l hl
    rw [List.length_eq_zero.mp (Nat.le_zero.mp hl)]
    rfl
  | succ m ih =>
    intro l hl
    cases l with
    | nil => rfl
    | cons x xs =>
      have hlen : (xs.drop n).length ≤ m := by
        rw [List.length_drop]
        simp only [List.length_cons] at hl
        omega
      show ((x :: xs).take (n + 1) :: toBatchesAux (n + 1) m (xs.drop n)).flatten = x :: xs
      rw [List.flatten_cons, ih (xs.drop n) hlen]
      show x :: (xs.take n ++ xs.drop n) = x :: xs
      rw [List.take_append_drop]

theorem toBatches_flatten (sz : ℕ) (hsz : 0 < sz) (l : List String) :
    (toBatches sz l).flatten = l := by
  obtain ⟨n, rfl⟩ : ∃ n, sz = n + 1 := ⟨sz - 1, by omega⟩
  exact toBatchesAux_flatten n l.length l le_rfl

theorem mem_batch_results (sz : ℕ) (hsz : 0 < sz)
    (bulk fetchOne : String → Option String)
    (decode : String → Option (List String)) (l : List String) (g : String)
    (mv : List String) :
    (⟨g, mv⟩ : OutputRecord) ∈
        (toBatches sz l).flatMap (process_game_batch bulk fetchOne decode) ↔
      g ∈ l ∧ gameOutcome bulk fetchOne decode g = some mv := by
  rw [List.mem_flatMap]
  constructor
  · rintro ⟨b, hb, hr⟩
    rcases (mem_process_game_batch bulk fetchOne decode b g mv).mp hr with ⟨hgb, hout⟩
    refine ⟨?_, hout⟩
    rw [← toBatches_flatten sz hsz l]
    exact List.mem_flatten.mpr ⟨b, hb, hgb⟩
  · rintro ⟨hgl, hout⟩
    have hgf : g ∈ (toBatches sz l).flatten := by
      rw [toBatches_flatten sz hsz l]
      exact hgl
    rcases List.mem_flatten.mp hgf with ⟨b, hb, hgb⟩
    exact ⟨b, hb, (mem_process_game_batch bulk fetchOne decode b g mv).mpr ⟨hgb, hout⟩⟩

theorem mem_fileIds :
    ∀ (lines : List Line) (x : String),
      x ∈ fileIds (some lines) ↔ ∃ mv, Line.obj (some x) mv ∈ lines := by
  intro lines
  induction lines with
  | nil => intro x; simp [fileIds]
  | cons l rest ih =>
    intro x
    cases l with
    | obj idf mvf =>
      cases idf with
      | some i =>
        show x ∈ insert i (fileIds (some rest)) ↔ _
        rw [Finset.mem_insert, ih x]
        constructor
        · rintro (rfl | ⟨mv, hmv⟩)
          · exact ⟨mvf, List.mem_cons_self _ _⟩
          · exact ⟨mv, List.mem_cons_of_mem _ hmv⟩
        · rintro ⟨mv, hmv⟩
          rcases List.mem_cons.mp hmv with heq | hmem
          · cases heq
            exact Or.inl rfl
          · exact Or.inr ⟨mv, hmem⟩
      | none =>
        show x ∈ fileIds (some rest) ↔ _
        rw [ih x]
        simp
    | objUnhashableId =>
      show x ∈ fileIds (some rest) ↔ _
      rw [ih x]
      simp
    | arrOrStrNoId =>
      show x ∈ fileIds (some rest) ↔ _
      rw [ih x]
      simp
    | arrOrStrWithId =>
      show x ∈ fileIds (some rest) ↔ _
      rw [ih x]
      simp
    | scalar =>
      show x ∈ fileIds (some rest) ↔ _
      rw [ih x]
      simp
    | invalid raw =>
      show x ∈ fileIds (some rest) ↔ _
      rw [ih x]
      simp
    | blank =>
      show x ∈ fileIds (some rest) ↔ _
      rw [ih x]
      simp

theorem scanLines_append_of_abort :
    ∀ (l₁ l₂ : List Line) (acc : Finset String),
      (∃ l ∈ l₁, isAborting l = true) →
      scanLines (l₁ ++ l₂) acc = scanLines l₁ acc := by
  intro l₁
  induction l₁ with
  | nil =>
    intro l₂ acc h
    rcases h with ⟨l, hl, _⟩
    exact absurd hl (List.not_mem_nil _)
  | cons l rest ih =>
    intro l₂ acc h
    have hrest : isAborting l = false → ∃ l₀ ∈ rest, isAborting l₀ = true := by
      intro hfalse
      rcases h with ⟨l₀, hl₀, hab⟩
      rcases List.mem_cons.mp hl₀ with rfl | hmem
      · rw [hfalse] at hab
        exact absurd hab (by simp)
      · exact ⟨l₀, hmem, hab⟩
    cases l with
    | obj idf mvf => cases idf <;> exact ih l₂ _ (hrest rfl)
    | objUnhashableId => rfl
    | arrOrStrNoId => exact ih l₂ _ (hrest rfl)
    | arrOrStrWithId => rfl
    | scalar => rfl
    | invalid raw => exact ih l₂ _ (hrest rfl)
    | blank => exact ih l₂ _ (hrest rfl)

theorem noAbort_some_iff (lines : List Line) :
    noAbort (some lines) ↔ ∀ l ∈ lines, isAborting l = false := by
  show lines.all (fun l => !isAborting l) = true ↔ _
  rw [List.all_eq_true]
  constructor
  · intro h l hl
    have hb := h l hl
    rwa [Bool.not_eq_true'] at hb
  · intro h l hl
    rw [Bool.not_eq_true']
    exact h l hl

theorem process_bucket_eq (bulk fetchOne : String → Option String)
    (decode : String → Option (List String)) (all_game_ids : List String)
    (file : Option (List Line)) :
    process_bucket bulk fetchOne decode all_game_ids file =
      if (games_to_fetch all_game_ids file).isEmpty then file
      else if ((toBatches BATCH_SIZE (games_to_fetch all_game_ids file)).flatMap
          (process_game_batch bulk fetchOne decode)).isEmpty then file
      else some ((file.getD []) ++
        ((toBatches BATCH_SIZE (games_to_fetch all_game_ids file)).flatMap
          (process_game_batch bulk fetchOne decode)).map
            fun r => Line.obj (some r.id) (some r.moves)) := rfl

theorem load_mem_of_no_abort (L : List Line)
    (h : ∀ l ∈ L, isAborting l = false) (x : String) :
    x ∈ load_existing_games (some L) ↔ ∃ mv, Line.obj (some x) mv ∈ L := by
  show x ∈ scanLines L ∅ ↔ _
  rw [scanLines_mem_of_no_abort L ∅ x h]
  simp

theorem games_to_fetch_congr (ids : List String) (f₁ f₂ : Option (List Line))
    (h : load_existing_games f₁ = load_existing_games f₂) :
    games_to_fetch ids f₁ = games_to_fetch ids f₂ := by
  unfold games_to_fetch
  rw [h]

/-- When the prior file's scan is not aborted, a second run returns the
first run's output file unchanged. -/
theorem process_bucket_stable (bulk fetchOne : String → Option String)
    (decode : String → Option (List String)) (all_game_ids : List String)
    (file : Option (List Line))
    (h₁ : ¬(games_to_fetch all_game_ids file).isEmpty = true)
    (hres : ¬((toBatches BATCH_SIZE (games_to_fetch all_game_ids file)).flatMap
        (process_game_batch bulk fetchOne decode)).isEmpty = true)
    (hns : ∀ l ∈ file.getD [], isAborting l = false)
    (hsub : ∀ x, x ∈ load_existing_games file →
      ∃ mv, Line.obj (some x) mv ∈ file.getD []) :
    process_bucket bulk fetchOne decode all_game_ids
        (process_bucket bulk fetchOne decode all_game_ids file)
      = process_bucket bulk fetchOne decode all_game_ids file := by
  have hrun₁ : process_bucket bulk fetchOne decode all_game_ids file =
      some (file.getD [] ++
        ((toBatches BATCH_SIZE (games_to_fetch all_game_ids file)).flatMap
          (process_game_batch bulk fetchOne decode)).map
            fun r => Line.obj (some r.id) (some r.moves)) := by
    rw [process_bucket_eq, if_neg h₁, if_neg hres]
  have hN : ∀ l ∈ (file.getD [] ++
      ((toBatches BATCH_SIZE (games_to_fetch all_game_ids file)).flatMap
        (process_game_batch bulk fetchOne decode)).map
          fun r => Line.obj (some r.id) (some r.moves)), isAborting l = false := by
    intro l hl
    rcases List.mem_append.mp hl with h | h
    · exact hns l h
    · rcases List.mem_map.mp h with ⟨r, _, rfl⟩
      rfl
  set L := file.getD [] ++
      ((toBatches BATCH_SIZE (games_to_fetch all_game_ids file)).flatMap
        (process_game_batch bulk fetchOne decode)).map
          fun r => Line.obj (some r.id) (some r.moves) with hL
  rw [hrun₁]
  by_cases hT₂ : (games_to_fetch all_game_ids (some L)).isEmpty
  · rw [process_bucket_eq, if_pos hT₂]
  · have hres₂ : ((toBatches BATCH_SIZE (games_to_fetch all_game_ids (some L))).flatMap
        (process_game_batch bulk fetchOne decode)) = [] := by
      rw [List.eq_nil_iff_forall_not_mem]
      intro r hr
      have hr' : (⟨r.id, r.moves⟩ : OutputRecord) ∈
          (toBatches BATCH_SIZE (games_to_fetch all_game_ids (some L))).flatMap
            (process_game_batch bulk fetchOne decode) := by
        cases r with
        | mk i m => exact hr
      have hmem := (mem_batch_results BATCH_SIZE (by decide) bulk fetchOne decode
        (games_to_fetch all_game_ids (some L)) r.id r.moves).mp hr'
      obtain ⟨hgT₂, hout⟩ := hmem
      rw [games_to_fetch_mem] at hgT₂
      obtain ⟨hgids, hgnot₂⟩ := hgT₂
      have hnotold : r.id ∉ load_existing_games file := by
        intro hmem₁
        apply hgnot₂
        rw [load_mem_of_no_abort L hN]
        rcases hsub _ hmem₁ with ⟨mv, hmv⟩
        refine ⟨mv, ?_⟩
        rw [hL]
        exact List.mem_append_left _ hmv
      have hgT₁ : r.id ∈ games_to_fetch all_game_ids file :=
        (games_to_fetch_mem _ _ _).mpr ⟨hgids, hnotold⟩
      have hrRes : (⟨r.id, r.moves⟩ : OutputRecord) ∈
          (toBatches BATCH_SIZE (games_to_fetch all_game_ids file)).flatMap
            (process_game_batch bulk fetchOne decode) :=
        (mem_batch_results BATCH_SIZE (by decide) bulk fetchOne decode
          (games_to_fetch all_game_ids file) r.id r.moves).mpr ⟨hgT₁, hout⟩
      apply hgnot₂
      rw [load_mem_of_no_abort L hN]
      refine ⟨some r.moves, ?_⟩
      rw [hL]
      exact List.mem_append_right _
        (List.mem_map.mpr ⟨⟨r.id, r.moves⟩, hrRes, rfl⟩)
    have hresEmpty :
        ((toBatches BATCH_SIZE (games_to_fetch all_game_ids (some L))).flatMap
          (process_game_batch bulk fetchOne decode)).isEmpty = true := by
      rw [hres₂]
      rfl
    rw [process_bucket_eq, if_neg hT₂, if_pos hresEmpty]

/-- C3 (amended): re-running the pipeline on the same bucket with the
same upstream responses never changes the set of ids present in the
output file; and provided the prior output file contains no line whose
processing aborts the resume scan — a non-container JSON value, a
list or string on which the `'id'` membership test succeeds, or an
object with an unhashable id value, each of which raises a `TypeError`
caught only by the scan's outer handler — the second run appends zero
new records, returning the file unchanged.  (When such an aborting
line is present the second run can re-append records already in the
file — see the counterexample — but even then the id set is
unchanged.) -/
theorem process_bucket_idempotent (bulk fetchOne : String → Option String)
    (decode : String → Option (List String)) (all_game_ids : List String)
    (file : Option (List Line)) :
    fileIds (process_bucket bulk fetchOne decode all_game_ids
        (process_bucket bulk fetchOne decode all_game_ids file))
      = fileIds (process_bucket bulk fetchOne decode all_game_ids file) ∧
    (noAbort file →
      process_bucket bulk fetchOne decode all_game_ids
          (process_bucket bulk fetchOne decode all_game_ids file)
        = process_bucket bulk fetchOne decode all_game_ids file) := by
  by_cases h₁ : (games_to_fetch all_game_ids file).isEmpty
  · have hrun : process_bucket bulk fetchOne decode all_game_ids file = file := by
      rw [process_bucket_eq, if_pos h₁]
    rw [hrun, hrun]
    exact ⟨rfl, fun _ => rfl⟩
  · by_cases hres : ((toBatches BATCH_SIZE (games_to_fetch all_game_ids file)).flatMap
        (process_game_batch bulk fetchOne decode)).isEmpty
    · have hrun : process_bucket bulk fetchOne decode all_game_ids file = file := by
        rw [process_bucket_eq, if_neg h₁, if_pos hres]
      rw [hrun, hrun]
      exact ⟨rfl, fun _ => rfl⟩
    · cases file with
      | none =>
        have hstable := process_bucket_stable bulk fetchOne decode all_game_ids none
          h₁ hres
          (by intro l hl; exact absurd hl (List.not_mem_nil l))
          (by
            intro x hx
            exact absurd hx (by simp [load_existing_games]))
        exact ⟨by rw [hstable], fun _ => hstable⟩
      | some lines =>
        by_cases hsc : ∃ l ∈ lines, isAborting l = true
        · have hload₂ : load_existing_games (some (lines ++
              ((toBatches BATCH_SIZE (games_to_fetch all_game_ids (some lines))).flatMap
                (process_game_batch bulk fetchOne decode)).map
                  fun r => Line.obj (some r.id) (some r.moves)))
              = load_existing_games (some lines) := by
            show scanLines _ ∅ = scanLines lines ∅
            exact scanLines_append_of_abort lines _ ∅ hsc
          have hT₂ : games_to_fetch all_game_ids (some (lines ++
              ((toBatches BATCH_SIZE (games_to_fetch all_game_ids (some lines))).flatMap
                (process_game_batch bulk fetchOne decode)).map
                  fun r => Line.obj (some r.id) (some r.moves)))
              = games_to_fetch all_game_ids (some lines) :=
            games_to_fetch_congr all_game_ids _ _ hload₂
          have hrun₁ : process_bucket bulk fetchOne decode all_game_ids (some lines) =
              some (lines ++
                ((toBatches BATCH_SIZE (games_to_fetch all_game_ids (some lines))).flatMap
                  (process_game_batch bulk fetchOne decode)).map
                    fun r => Line.obj (some r.id) (some r.moves)) := by
            rw [process_bucket_eq, if_neg h₁, if_neg hres]
            rfl
          have hrun₂ : process_bucket bulk fetchOne decode all_game_ids
              (some (lines ++
                ((toBatches BATCH_SIZE (games_to_fetch all_game_ids (some lines))).flatMap
                  (process_game_batch bulk fetchOne decode)).map
                    fun r => Line.obj (some r.id) (some r.moves))) =
              some ((lines ++
                ((toBatches BATCH_SIZE (games_to_fetch all_game_ids (some lines))).flatMap
                  (process_game_batch bulk fetchOne decode)).map
                    fun r => Line.obj (some r.id) (some r.moves)) ++
                ((toBatches BATCH_SIZE (games_to_fetch all_game_ids (some lines))).flatMap
                  (process_game_batch bulk fetchOne decode)).map
                    fun r => Line.obj (some r.id) (some r.moves)) := by
            rw [process_bucket_eq, hT₂, if_neg h₁, if_neg hres]
            rfl
          refine ⟨?_, fun hna => ?_⟩
          · rw [hrun₁, hrun₂]
            apply Finset.ext
            intro x
            rw [mem_fileIds, mem_fileIds]
            constructor
            · rintro ⟨mv, hmv⟩
              rcases List.mem_append.mp hmv with h | h
              · exact ⟨mv, h⟩
              · exact ⟨mv, List.mem_append_right _ h⟩
            · rintro ⟨mv, hmv⟩
              exact ⟨mv, List.mem_append_left _ hmv⟩
          · rcases hsc with ⟨l₀, hl₀, hab⟩
            have hfalse := (noAbort_some_iff lines).mp hna l₀ hl₀
            rw [hfalse] at hab
            exact absurd hab (by simp)
        · have hns : ∀ l ∈ lines, isAborting l = false := by
            intro l hl
            cases hab : isAborting l with
            | false => rfl
            | true => exact absurd ⟨l, hl, hab⟩ hsc
          have hstable := process_bucket_stable bulk fetchOne decode all_game_ids
            (some lines) h₁ hres
            (by
              intro l hl
              exact hns l hl)
            (by
              intro x hx
              have hxx := (load_mem_of_no_abort lines hns x).mp hx
              exact hxx)
          exact ⟨by rw [hstable], fun _ => hstable⟩

/-- Counterexample to C3 as stated: with an existing output file whose
single line aborts the resume scan, the scan of both runs recovers
nothing, so the second run re-fetches `g1` and appends its record a
second time — the second run does not append zero records.  (The id
set of the file is nevertheless unchanged.)  Shown for both abort
shapes: a non-container line such as `5` (`Line.scalar`) and a
container line such as `["id"]` or `"hide"` on which the membership
test succeeds and indexing raises (`Line.arrOrStrWithId`). -/
theorem process_bucket_idempotent_cx :
    (process_bucket bulkCx fetchOneCx decodeCx ["g1"] (some [Line.scalar]) =
      some [Line.scalar, Line.obj (some "g1") (some ["e2e4"])] ∧
    process_bucket bulkCx fetchOneCx decodeCx ["g1"]
        (process_bucket bulkCx fetchOneCx decodeCx ["g1"] (some [Line.scalar])) =
      some [Line.scalar, Line.obj (some "g1") (some ["e2e4"]),
        Line.obj (some "g1") (some ["e2e4"])]) ∧
    (process_bucket bulkCx fetchOneCx decodeCx ["g1"]
        (some [Line.arrOrStrWithId]) =
      some [Line.arrOrStrWithId, Line.obj (some "g1") (some ["e2e4"])] ∧
    process_bucket bulkCx fetchOneCx decodeCx ["g1"]
        (process_bucket bulkCx fetchOneCx decodeCx ["g1"]
          (some [Line.arrOrStrWithId])) =
      some [Line.arrOrStrWithId, Line.obj (some "g1") (some ["e2e4"]),
        Line.obj (some "g1") (some ["e2e4"])]) := by
  refine ⟨⟨?_, ?_⟩, ?_, ?_⟩
  · decide
  · decide
  · decide
  · decide

/-- Concrete instantiation of C3 (amended): starting from no output
file, a second run returns the first run's file unchanged. -/
theorem process_bucket_idempotent_witness :
    noAbort (none : Option (List Line)) ∧
    process_bucket bulkCx fetchOneCx decodeCx ["g1"]
        (process_bucket bulkCx fetchOneCx decodeCx ["g1"] none) =
      process_bucket bulkCx fetchOneCx decodeCx ["g1"] none :=
  ⟨trivial,
    (process_bucket_idempotent bulkCx fetchOneCx decodeCx ["g1"] none).2 trivial⟩

/-! ## C1: the sliding-window rate limiter -/

theorem countP_le_countP_of_count_le (l₁ l₂ : List ℚ) (q : ℚ → Bool)
    (h : ∀ x, q x = true → l₁.count x ≤ l₂.count x) :
    l₁.countP q ≤ l₂.countP q := by
  rw [List.countP_eq_length_filter, List.countP_eq_length_filter]
  have hsub : List.Subperm (l₁.filter q) (l₂.filter q) := by
    rw [List.subperm_ext_iff]
    intro x hx
    have hq : q x = true := (List.mem_filter.mp hx).2
    rw [List.count_filter hq, List.count_filter hq]
    exact h x hq
  exact hsub.length_le

theorem count_filter_le_count (l : List ℚ) (q : ℚ → Bool) (x : ℚ) :
    (l.filter q).count x ≤ l.count x := by
  by_cases hq : q x = true
  · rw [List.count_filter hq]
  · rw [List.count_eq_zero.mpr]
    · exact Nat.zero_le _
    · intro hx
      exact hq (List.mem_filter.mp hx).2

theorem count_filter_eq (l : List ℚ) (q : ℚ → Bool) (x : ℚ) (hq : q x = true) :
    (l.filter q).count x = l.count x :=
  List.count_filter hq

theorem acquireAttempt_inv {R : ℕ} {W c p a : ℚ} {s : RLState}
    (hinv : RLInv R W c s) (hcp : c ≤ p) (hpa : p ≤ a) :
    RLInv R W a (acquireAttempt R W p a s) := by
  obtain ⟨hcount, hdef, hbound, hsort, hwin⟩ := hinv
  have hca : c ≤ a := le_trans hcp hpa
  unfold acquireAttempt RLInv
  by_cases hlen : (s.requests.filter fun t => decide (p - t < W)).length < R
  · rw [if_pos hlen]
    refine ⟨?_, ?_, ?_, ?_, ?_⟩
    · intro x
      simp only
      rw [List.count_append, List.count_append]
      have h1 := count_filter_le_count s.requests (fun t => decide (p - t < W)) x
      have h2 := hcount x
      omega
    · intro x hx
      simp only at hx
      rw [List.count_append, List.count_append] at hx
      have hplt : (s.requests.filter fun t => decide (p - t < W)).count x
          < s.history.count x := by omega
      by_cases hq : (decide (p - x < W)) = true
      · rw [count_filter_eq s.requests (fun t => decide (p - t < W)) x hq] at hplt
        have hwc := hdef x hplt
        linarith
      · have hnq : ¬(p - x < W) := by simpa using hq
        have h2 : W ≤ p - x := not_lt.mp hnq
        linarith
    · intro t ht
      simp only at ht
      rcases List.mem_append.mp ht with h | h
      · exact le_trans (hbound t h) hca
      · rw [List.mem_singleton.mp h]
    · simp only
      rw [List.Sorted, List.pairwise_append]
      refine ⟨hsort, List.pairwise_singleton _ _, ?_⟩
      intro x hx y hy
      rw [List.mem_singleton.mp hy]
      exact le_trans (hbound x hx) hca
    · intro lo
      simp only
      rw [List.countP_append]
      by_cases ha : inWindow W lo a = true
      · have hwinfacts : lo < a ∧ a ≤ lo + W := by
          simpa [inWindow] using ha
        have step1 : s.history.countP (inWindow W lo) ≤
            s.requests.countP (inWindow W lo) := by
          apply countP_le_countP_of_count_le
          intro x hqx
          have hxw : lo < x ∧ x ≤ lo + W := by
            simpa [inWindow] using hqx
          by_contra hgt
          push_neg at hgt
          have hstrict : s.requests.count x < s.history.count x := hgt
          have hwc : W ≤ c - x := hdef x hstrict
          linarith [hwinfacts.1, hwinfacts.2, hxw.1, hxw.2]
        have step2 : s.requests.countP (inWindow W lo) ≤
            (s.requests.filter fun t => decide (p - t < W)).length := by
          rw [← List.countP_eq_length_filter]
          apply List.countP_mono_left
          intro x _ hx
          have hxw : lo < x ∧ x ≤ lo + W := by
            simpa [inWindow] using hx
          have : p - x < W := by
            linarith [hwinfacts.1, hwinfacts.2, hxw.1, hxw.2]
          simpa using this
        have hone : List.countP (inWindow W lo) [a] = 1 := by
          simp [ha]
        omega
      · have hzero : List.countP (inWindow W lo) [a] = 0 := by
          simp [List.countP_cons]
          simpa using ha
        have := hwin lo
        omega
  · rw [if_neg hlen]
    refine ⟨?_, ?_, ?_, ?_, ?_⟩
    · intro x
      simp only
      have h1 := count_filter_le_count s.requests (fun t => decide (p - t < W)) x
      have h2 := hcount x
      omega
    · intro x hx
      simp only at hx
      by_cases hq : (decide (p - x < W)) = true
      · rw [count_filter_eq s.requests (fun t => decide (p - t < W)) x hq] at hx
        have hwc := hdef x hx
        linarith
      · have hnq : ¬(p - x < W) := by simpa using hq
        have h2 : W ≤ p - x := not_lt.mp hnq
        linarith
    · intro t ht
      simp only at ht
      exact le_trans (hbound t ht) hca
    · exact hsort
    · exact hwin

theorem runAcquires_inv {R : ℕ} {W : ℚ} :
    ∀ (attempts : List (ℚ × ℚ)) (s : RLState) (c : ℚ),
      RLInv R W c s → List.Chain' (· ≤ ·) (c :: attemptTimes attempts) →
      RLInv R W (lastTime c attempts) (runAcquires R W attempts s) := by
  intro attempts
  induction attempts with
  | nil => intro s c hinv _; exact hinv
  | cons pa rest ih =>
    intro s c hinv hchain
    obtain ⟨p, a⟩ := pa
    rw [show attemptTimes ((p, a) :: rest) = p :: a :: attemptTimes rest from rfl]
      at hchain
    have h1 := List.chain'_cons.mp hchain
    have h2 := List.chain'_cons.mp h1.2
    exact ih (acquireAttempt R W p a s) a
      (acquireAttempt_inv hinv h1.1 h2.1) h2.2

theorem sorted_window_sep {l : List ℚ} {R : ℕ} {W : ℚ}
    (hs : l.Sorted (· ≤ ·)) (hw : ∀ lo : ℚ, l.countP (inWindow W lo) ≤ R)
    (i : ℕ) (hiR : i + R < l.length) :
    W ≤ l.get ⟨i + R, hiR⟩ - l.get ⟨i, by omega⟩ := by
  by_contra hcon
  push_neg at hcon
  obtain ⟨x, hx⟩ : ∃ v, l.get ⟨i, by omega⟩ = v := ⟨_, rfl⟩
  obtain ⟨y, hy⟩ : ∃ v, l.get ⟨i + R, hiR⟩ = v := ⟨_, rfl⟩
  rw [hx, hy] at hcon
  have hlen : ((l.drop i).take (R + 1)).length = R + 1 := by
    rw [List.length_take, List.length_drop]
    omega
  have hall : ∀ t ∈ (l.drop i).take (R + 1),
      inWindow W (x - (W - (y - x)) / 2) t = true := by
    intro t ht
    obtain ⟨⟨k, hk⟩, hget⟩ := List.mem_iff_get.mp ht
    have hk2 : k < R + 1 := by
      rw [hlen] at hk
      exact hk
    have hkl : i + k < l.length := by omega
    have hdk : k < (l.drop i).length := by
      rw [List.length_drop]
      omega
    have hEq : ((l.drop i).take (R + 1)).get ⟨k, hk⟩ = l.get ⟨i + k, hkl⟩ := by
      have step1 : ((l.drop i).take (R + 1)).get ⟨k, hk⟩ = (l.drop i).get ⟨k, hdk⟩ := by
        simp [List.getElem_take]
      rw [step1]
      exact (List.get_drop l hkl).symm
    have hx1 : x ≤ l.get ⟨i + k, hkl⟩ := by
      rw [← hx]
      exact hs.get_mono (Fin.mk_le_mk.mpr (by omega))
    have hx2 : l.get ⟨i + k, hkl⟩ ≤ y := by
      rw [← hy]
      exact hs.get_mono (Fin.mk_le_mk.mpr (by omega))
    rw [← hget, hEq]
    simp only [inWindow, Bool.and_eq_true, decide_eq_true_eq]
    constructor
    · linarith
    · linarith
  have hcnt : ((l.drop i).take (R + 1)).countP (inWindow W (x - (W - (y - x)) / 2))
      = ((l.drop i).take (R + 1)).length := List.countP_eq_length.mpr hall
  have hsub : List.Sublist ((l.drop i).take (R + 1)) l :=
    ((l.drop i).take_sublist (R + 1)).trans (l.drop_sublist i)
  have hle := hsub.countP_le (inWindow W (x - (W - (y - x)) / 2))
  have hR := hw (x - (W - (y - x)) / 2)
  omega

/-- C1: for any serialized sequence of `acquire` critical sections with
weakly increasing clock readings (real time is monotone; all list
mutation happens under the limiter's lock), every rolling window of
width `W` contains at most `R` granted timestamps, and consequently
consecutive grants `R` apart are separated by at least `W` — with
`R = 15, W = 1` the 1st and 16th grants are at least one second
apart. -/
theorem rateLimiter_window_bound (R : ℕ) (W : ℚ) (attempts : List (ℚ × ℚ))
    (hmono : List.Chain' (· ≤ ·) (attemptTimes attempts)) :
    (∀ lo : ℚ,
      (runAcquires R W attempts initRL).history.countP (inWindow W lo) ≤ R) ∧
    (∀ i : ℕ, ∀ hiR : i + R < (runAcquires R W attempts initRL).history.length,
      W ≤ (runAcquires R W attempts initRL).history.get ⟨i + R, hiR⟩ -
        (runAcquires R W attempts initRL).history.get ⟨i, by omega⟩) := by
  have hinit : RLInv R W ((attemptTimes attempts).headD 0) initRL := by
    refine ⟨?_, ?_, ?_, ?_, ?_⟩
    · intro x
      simp [initRL]
    · intro x hx
      simp [initRL] at hx
    · intro t ht
      simp [initRL] at ht
    · simp [initRL, List.Sorted]
    · intro lo
      simp [initRL]
  have hchain : List.Chain' (· ≤ ·)
      ((attemptTimes attempts).headD 0 :: attemptTimes attempts) := by
    cases h : attemptTimes attempts with
    | nil => simp
    | cons t ts =>
      rw [List.chain'_cons]
      exact ⟨le_rfl, h ▸ hmono⟩
  have hfin := runAcquires_inv attempts initRL _ hinit hchain
  obtain ⟨_, _, _, hsort, hwin⟩ := hfin
  exact ⟨hwin, fun i hiR => sorted_window_sep hsort hwin i hiR⟩

/-- Concrete instantiation of C1 with `R = 2, W = 1`: two grants at
time 0 and a third attempt at time 2; the window bound holds and the
1st and 3rd grants are at least `W` apart. -/
theorem rateLimiter_window_bound_witness :
    List.Chain' (· ≤ ·) (attemptTimes [((0 : ℚ), (0 : ℚ)), (0, 0), (2, 2)]) ∧
    (∀ lo : ℚ,
      (runAcquires 2 1 [((0 : ℚ), (0 : ℚ)), (0, 0), (2, 2)] initRL).history.countP
        (inWindow 1 lo) ≤ 2) :=
  ⟨by norm_num [attemptTimes, List.chain'_cons],
    (rateLimiter_window_bound 2 1 [((0 : ℚ), (0 : ℚ)), (0, 0), (2, 2)]
      (by norm_num [attemptTimes, List.chain'_cons])).1⟩

end Chessnerd
